import Mathlib

/-!
Verification of the ais-service core (collector.go, api.go).

Shallow embedding conventions:
* Go's `time.Time` values are modelled at the resolution the code uses:
  calendar dates (`Date`) for the query surface and second-resolution
  instants (`DT`) for partition file naming.  "Now" is passed explicitly,
  so the naming function is a pure function of the instant, exactly as in
  the source where `time.Now()` is the only input.
* The filesystem is modelled as an explicit listing of the `ais_data/`
  directory (a `List String` of full paths) threaded through the collector
  state; `filepath.Glob` is modelled as filter-then-sort over that listing
  (Go's `Glob` returns matches in lexicographic order).
* Fallible I/O performed by the parquet dependency (file-writer creation,
  writer initialisation, per-record encoding, finalisation) is driven by a
  `WriteOracle` of failure outcomes, mirroring the `err` results the Go
  code inspects.
* JSON payloads are modelled by an inductive `Json`; `json.Unmarshal` into
  `map[string]interface{}` succeeds exactly on top-level objects, which the
  embedding reflects by matching on `Json.obj`.  JSON numbers (Go `float64`)
  are modelled as exact rationals; `fmt.Sprintf("%.0f", x)` is modelled as
  round-half-to-even followed by decimal rendering, matching Go's strconv
  semantics on the magnitudes involved.
-/

/- ===== Calendar model (the fragment of Go `time` used by the service) ===== -/

/-- A calendar date, as carried by a Go `time.Time` at day resolution. -/
structure Date where
  year : Nat
  month : Nat
  day : Nat
deriving DecidableEq, Repr

/-- Gregorian leap-year rule, as in Go's `time.isLeap`. -/
def isLeap (y : Nat) : Bool :=
  y % 4 == 0 && (y % 100 != 0 || y % 400 == 0)

/-- Days in a month, as in Go's `time.daysIn`. -/
def daysInMonth (y m : Nat) : Nat :=
  if m == 2 then (if isLeap y then 29 else 28)
  else if m == 4 || m == 6 || m == 9 || m == 11 then 30
  else 31

/-- The dates representable by a normalised Go `time.Time`. -/
def validDate (d : Date) : Prop :=
  1 ≤ d.month ∧ d.month ≤ 12 ∧ 1 ≤ d.day ∧ d.day ≤ daysInMonth d.year d.month

instance (d : Date) : Decidable (validDate d) := by
  unfold validDate; infer_instance

/-- Strict chronological order on dates (Go `time.Time.After`, at midnight UTC). -/
def dateLtP (a b : Date) : Prop :=
  a.year < b.year ∨
    (a.year = b.year ∧ (a.month < b.month ∨ (a.month = b.month ∧ a.day < b.day)))

instance (a b : Date) : Decidable (dateLtP a b) := by
  unfold dateLtP; infer_instance

def dateLeP (a b : Date) : Prop := dateLtP a b ∨ a = b

instance (a b : Date) : Decidable (dateLeP a b) := by
  unfold dateLeP; infer_instance

/-- `d.AddDate(0, 0, 1)` on a valid date: the next calendar day. -/
def nextDay (d : Date) : Date :=
  if d.day < daysInMonth d.year d.month then ⟨d.year, d.month, d.day + 1⟩
  else if d.month < 12 then ⟨d.year, d.month + 1, 1⟩
  else ⟨d.year + 1, 1, 1⟩

/-- A measure strictly increased by `nextDay` on valid dates (proof device
for the day-iteration loop in `getFilePaths`; not part of the source). -/
def dayRank (d : Date) : Nat := d.year * 372 + d.month * 31 + d.day

/- ===== Decimal formatting (Go `time.Time.Format` layouts) ===== -/

/-- Zero-padded fixed-width decimal rendering of `n` (low `w` digits), as
produced by Go's `Format` for the numeric layout fields used here ("2006",
"01", "02", "15", "04", "05"); each such field is within width. -/
def padNum : Nat → Nat → List Char
  | 0, _ => []
  | w + 1, n => Nat.digitChar (n / 10 ^ w % 10) :: padNum w n

/-- `Format("2006-01-02")`. -/
def dateChars (d : Date) : List Char :=
  padNum 4 d.year ++ '-' :: padNum 2 d.month ++ '-' :: padNum 2 d.day

def dateStr (d : Date) : String := ⟨dateChars d⟩

/- ===== Date parsing (Go `time.Parse("2006-01-02", s)`) ===== -/

def isDigitCh (c : Char) : Bool := '0' ≤ c && c ≤ '9'

def digitVal (c : Char) : Nat := c.toNat - '0'.toNat

/-- `time.Parse("2006-01-02", s)`: exactly four year digits, a dash, two
month digits, a dash, two day digits, nothing more; month and day are then
range-checked ("month out of range" / "day out of range"). -/
def parseDate (s : String) : Option Date :=
  match s.data with
  | [y1, y2, y3, y4, c1, m1, m2, c2, d1, d2] =>
    if isDigitCh y1 && isDigitCh y2 && isDigitCh y3 && isDigitCh y4 &&
       c1 == '-' && isDigitCh m1 && isDigitCh m2 &&
       c2 == '-' && isDigitCh d1 && isDigitCh d2 then
      let y := digitVal y1 * 1000 + digitVal y2 * 100 + digitVal y3 * 10 + digitVal y4
      let m := digitVal m1 * 10 + digitVal m2
      let d := digitVal d1 * 10 + digitVal d2
      if 1 ≤ m ∧ m ≤ 12 ∧ 1 ≤ d ∧ d ≤ daysInMonth y m then some ⟨y, m, d⟩
      else none
    else none
  | _ => none

/- ===== Second-resolution instants and partition file naming ===== -/

/-- A wall-clock instant at second resolution (the granularity used by
`getNewFilePath` and the record timestamps). -/
structure DT where
  date : Date
  hh : Nat
  mm : Nat
  ss : Nat
deriving DecidableEq, Repr

def validDT (t : DT) : Prop :=
  validDate t.date ∧ t.hh < 24 ∧ t.mm < 60 ∧ t.ss < 60

instance (t : DT) : Decidable (validDT t) := by
  unfold validDT; infer_instance

/-- Strict chronological order on instants at second resolution. -/
def dtLtP (a b : DT) : Prop :=
  dateLtP a.date b.date ∨
    (a.date = b.date ∧ (a.hh < b.hh ∨ (a.hh = b.hh ∧
      (a.mm < b.mm ∨ (a.mm = b.mm ∧ a.ss < b.ss)))))

instance (a b : DT) : Decidable (dtLtP a b) := by
  unfold dtLtP; infer_instance

def dtLeP (a b : DT) : Prop := dtLtP a b ∨ a = b

instance (a b : DT) : Decidable (dtLeP a b) := by
  unfold dtLeP; infer_instance

/-- `now.Format("2006-01-02_15-04-05")`. -/
def dtChars (t : DT) : List Char :=
  dateChars t.date ++ '_' ::
    (padNum 2 t.hh ++ '-' :: padNum 2 t.mm ++ '-' :: padNum 2 t.ss)

/-- collector.go `getNewFilePath`: a timestamped parquet filename,
`fmt.Sprintf("ais_data/%s.parquet", time.Now().Format("2006-01-02_15-04-05"))`,
with "now" passed explicitly. -/
def getNewFilePath (now : DT) : String :=
  "ais_data/" ++ (⟨dtChars now⟩ : String) ++ ".parquet"

/-- `time.Now().UTC().Format(time.RFC3339)` (UTC, so the offset renders as 'Z'). -/
def rfc3339 (now : DT) : String :=
  ⟨dateChars now.date ++ 'T' ::
    (padNum 2 now.hh ++ ':' :: padNum 2 now.mm ++ ':' :: padNum 2 now.ss) ++ ['Z']⟩

/- ===== JSON payloads and MMSI extraction ===== -/

/-- JSON values as decoded by `encoding/json` into `interface{}`: numbers
become `float64` (modelled as exact rationals), objects become maps
(modelled as key-unique association lists). -/
inductive Json where
  | null
  | bool (b : Bool)
  | num (q : ℚ)
  | str (s : String)
  | arr (elems : List Json)
  | obj (fields : List (String × Json))

/-- Decimal digits of `n`, most significant first (fuel-driven so that the
kernel can evaluate it; `natCharsAux (n+1) n` always has enough fuel). -/
def natCharsAux : Nat → Nat → List Char
  | 0, _ => []
  | fuel + 1, n =>
    if n < 10 then [Nat.digitChar n]
    else natCharsAux fuel (n / 10) ++ [Nat.digitChar (n % 10)]

def natChars (n : Nat) : List Char := natCharsAux (n + 1) n

def intChars (i : Int) : List Char :=
  if i < 0 then '-' :: natChars i.natAbs else natChars i.natAbs

/-- Rounding to the nearest integer, ties to even: the rounding mode of
Go's `strconv` float formatting, hence of `fmt.Sprintf("%.0f", _)`. -/
def roundHalfEven (q : ℚ) : Int :=
  let f := q.floor
  let r := q - f
  if r < 1/2 then f
  else if 1/2 < r then f + 1
  else if f % 2 = 0 then f else f + 1

/-- `fmt.Sprintf("%.0f", x)`: the value rounded to an integer (half to
even) and rendered in decimal with no fractional digits. -/
def goFmtF0 (q : ℚ) : String := ⟨intChars (roundHalfEven q)⟩

/-- collector.go `extractMMSI`: walk `data["Message"]["PositionReport"]["UserID"]`,
requiring a map at each step and a `float64` at the leaf; any failure yields "". -/
def extractMMSI (data : List (String × Json)) : String :=
  match data.lookup "Message" with
  | some (Json.obj msg) =>
    match msg.lookup "PositionReport" with
    | some (Json.obj pos) =>
      match pos.lookup "UserID" with
      | some (Json.num mmsi) => goFmtF0 mmsi
      | _ => ""
    | _ => ""
  | _ => ""

/- ===== Collector state and the buffer/flush pipeline ===== -/

/-- collector.go `MaxRecordsPerFile`. -/
def MaxRecordsPerFile : Nat := 100000

/-- collector.go `AISRecord`. -/
structure AISRecord where
  Timestamp : String
  MMSI : String
  RawJSON : String
deriving DecidableEq, Repr

/-- What is on disk at a path touched by `saveToParquet`:
`created` — `os.Create` ran but nothing was written (writer init failed);
`unfinalized` — rows were written but `WriteStop` failed, so the file
lacks its footer and is not a readable partition;
`finalized` — a complete partition holding exactly `recs`, in order. -/
inductive FileData where
  | created
  | unfinalized
  | finalized (recs : List AISRecord)
deriving DecidableEq, Repr

/-- Outcomes of the fallible parquet-library calls inside one
`saveToParquet` invocation, in the order the source checks them. -/
structure WriteOracle where
  fwErr : Bool
  pwErr : Bool
  recErr : AISRecord → Bool
  stopErr : Bool

/-- The all-successful oracle: every library call succeeds. -/
def noErrOracle : WriteOracle := ⟨false, false, fun _ => false, false⟩

/-- The collector's global mutable state (`aisRecords`, `recordCount`,
`lastLogPercent`) together with the `ais_data/` directory contents. -/
structure CState where
  aisRecords : List AISRecord
  recordCount : Nat
  lastLogPercent : Nat
  files : List (String × FileData)
deriving DecidableEq, Repr

/-- Process start: empty buffer, zero counters, empty data directory. -/
def initState : CState := ⟨[], 0, 0, []⟩

/-- Store `c` at path `p`, overwriting any existing entry (`os.Create`
truncates an existing file rather than failing). -/
def setFile : List (String × FileData) → String → FileData → List (String × FileData)
  | [], p, c => [(p, c)]
  | e :: rest, p, c =>
    if e.1 = p then (p, c) :: rest else e :: setFile rest p c

/-- collector.go `saveToParquet`: under the buffer lock, skip if the buffer
is empty; otherwise create the file writer, the parquet writer, write each
buffered record (a per-record error is logged and the loop continues),
finalize, and only after a successful `WriteStop` clear `aisRecords` and
`recordCount`.  Every `err != nil` branch is an early `return` that leaves
the buffer untouched. -/
def saveToParquet (o : WriteOracle) (now : DT) (s : CState) : CState :=
  if s.recordCount == 0 then s
  else
    let currentFile := getNewFilePath now
    if o.fwErr then s
    else if o.pwErr then { s with files := setFile s.files currentFile .created }
    else
      let written := s.aisRecords.filter (fun r => !o.recErr r)
      if o.stopErr then { s with files := setFile s.files currentFile .unfinalized }
      else
        { s with
          files := setFile s.files currentFile (.finalized written),
          aisRecords := [], recordCount := 0 }

/-- collector.go `handleAISMessage`: unmarshal the payload (into a
`map[string]interface{}`, so only top-level objects succeed), extract the
MMSI (dropping the message if it is empty), append a record and bump the
count, update the 10%-step progress marker, and flush synchronously when
`recordCount` reaches `MaxRecordsPerFile`. -/
def handleAISMessage (parse : String → Option Json) (o : WriteOracle) (now : DT)
    (s : CState) (message : String) : CState :=
  match parse message with
  | some (Json.obj data) =>
    let mmsi := extractMMSI data
    if mmsi == "" then s
    else
      let record : AISRecord := ⟨rfc3339 now, mmsi, message⟩
      let s1 := { s with
        aisRecords := s.aisRecords ++ [record],
        recordCount := s.recordCount + 1 }
      let currentPercent := s1.recordCount * 100 / MaxRecordsPerFile
      let s2 := if currentPercent / 10 != s1.lastLogPercent / 10
        then { s1 with lastLogPercent := currentPercent } else s1
      if MaxRecordsPerFile ≤ s2.recordCount then saveToParquet o now s2 else s2
  | _ => s

/-- The ingestion context: messages arriving in order, each handled by
`handleAISMessage` (no time-trigger interference). -/
def runMessages (parse : String → Option Json) (o : WriteOracle) (now : DT)
    (s : CState) (msgs : List String) : CState :=
  msgs.foldl (handleAISMessage parse o now) s

/- ===== Query surface: file resolution and date-range middleware ===== -/

/-- Does path `p` match the glob pattern `ais_data/<date>_*.parquet`?
(`*` matches any run of non-separator characters.) -/
def globMatch (d : Date) (p : String) : Bool :=
  let pat := "ais_data/".data ++ dateChars d ++ ['_']
  pat.isPrefixOf p.data &&
    (let rest := p.data.drop pat.length
     ".parquet".data.isSuffixOf rest &&
       (rest.take (rest.length - 8)).all (fun c => c != '/'))

/-- Byte-wise lexicographic order on (ASCII) paths, as used by
`filepath.Glob` when sorting its matches. -/
def pathLe (a b : String) : Bool := decide (a.data ≤ b.data)

def insertPath (x : String) : List String → List String
  | [] => [x]
  | y :: ys => if pathLe x y then x :: y :: ys else y :: insertPath x ys

/-- `filepath.Glob` returns its matches sorted; modelled by an insertion
sort of the filtered directory listing. -/
def sortPaths : List String → List String
  | [] => []
  | x :: xs => insertPath x (sortPaths xs)

/-- One iteration block of the `getFilePaths` loop: the sorted matches of
one day's glob pattern. -/
def globDay (fs : List String) (d : Date) : List String :=
  sortPaths (fs.filter (fun p => globMatch d p))

/-- The day-iteration loop `for d := start; !d.After(end); d = d.AddDate(0,0,1)`,
fuel-driven for totality; `daysRange` supplies enough fuel for every input
the theorems consider. -/
def daysRangeAux : Nat → Date → Date → List Date
  | 0, _, _ => []
  | fuel + 1, a, b =>
    if dateLtP b a then [] else a :: daysRangeAux fuel (nextDay a) b

def daysRange (a b : Date) : List Date :=
  daysRangeAux (dayRank b + 1 - dayRank a) a b

/-- api.go `getFilePaths`: parse both bounds (ignoring errors, as the
source does — a failed parse yields Go's zero time, year 1), then for each
day in `[start, end]` glob `ais_data/<day>_*.parquet` and concatenate the
sorted matches. -/
def getFilePaths (fromS toS : String) (fs : List String) : List String :=
  let start := (parseDate fromS).getD ⟨1, 1, 1⟩
  let stop := (parseDate toS).getD ⟨1, 1, 1⟩
  (daysRange start stop).flatMap (globDay fs)

/-- Outcome of the date-range middleware: HTTP 400 on either unparsable
bound, HTTP 404 when no file matched, or the values stored into the
request context. -/
inductive MwResult where
  | badReqFrom
  | badReqTo
  | notFound
  | ok (fromD toD : Date) (files : List String)
deriving DecidableEq, Repr

/-- api.go `middlewareDateRange`: 'from' defaults to today, 'to' defaults
to 'from'; each bound must parse as `2006-01-02` (else 400); the matched
files must be non-empty (else 404 "No data available"). -/
def middlewareDateRange (todayStr : String) (fs : List String)
    (fromQ toQ : Option String) : MwResult :=
  let fromStr := fromQ.getD todayStr
  let toStr := toQ.getD fromStr
  match parseDate fromStr with
  | none => .badReqFrom
  | some fromD =>
    match parseDate toStr with
    | none => .badReqTo
    | some toD =>
      let files := getFilePaths fromStr toStr fs
      if files.isEmpty then .notFound
      else .ok fromD toD files

/- ===== Helper lemmas: buffer and flush ===== -/

theorem saveToParquet_of_count_zero (o : WriteOracle) (now : DT) (s : CState)
    (h : s.recordCount = 0) : saveToParquet o now s = s := by
  unfold saveToParquet
  simp [h]

theorem saveToParquet_records (o : WriteOracle) (now : DT) (s : CState)
    (hfail : o.fwErr = true ∨ o.pwErr = true ∨ o.stopErr = true) :
    (saveToParquet o now s).aisRecords = s.aisRecords ∧
      (saveToParquet o now s).recordCount = s.recordCount := by
  unfold saveToParquet
  split
  · exact ⟨rfl, rfl⟩
  · split
    · exact ⟨rfl, rfl⟩
    · split
      · exact ⟨rfl, rfl⟩
      · split
        · exact ⟨rfl, rfl⟩
        · rcases hfail with h | h | h <;> simp_all

theorem saveToParquet_success (o : WriteOracle) (now : DT) (s : CState)
    (h0 : s.recordCount ≠ 0) (h1 : o.fwErr = false) (h2 : o.pwErr = false)
    (h3 : o.stopErr = false) :
    saveToParquet o now s =
      { s with
        files := setFile s.files (getNewFilePath now)
          (.finalized (s.aisRecords.filter (fun r => !o.recErr r))),
        aisRecords := [], recordCount := 0 } := by
  unfold saveToParquet
  simp [h0, h1, h2, h3]

theorem mem_of_mem_setFile {fs : List (String × FileData)} {p q : String}
    {c c0 : FileData} (h : (q, c0) ∈ setFile fs p c) :
    (q, c0) = (p, c) ∨ (q, c0) ∈ fs := by
  induction fs with
  | nil => simpa [setFile] using h
  | cons hd tl ih =>
    unfold setFile at h
    split at h
    · rcases List.mem_cons.mp h with h | h
      · exact Or.inl h
      · exact Or.inr (List.mem_cons_of_mem _ h)
    · rcases List.mem_cons.mp h with h | h
      · exact Or.inr (h ▸ List.mem_cons_self _ _)
      · rcases ih h with h' | h'
        · exact Or.inl h'
        · exact Or.inr (List.mem_cons_of_mem _ h')

theorem self_mem_setFile (fs : List (String × FileData)) (p : String) (c : FileData) :
    (p, c) ∈ setFile fs p c := by
  induction fs with
  | nil => simp [setFile]
  | cons hd tl ih =>
    unfold setFile
    split
    · exact List.mem_cons_self _ _
    · exact List.mem_cons_of_mem _ ih

/-- The records readable from a file: only a finalized partition holds data. -/
def fileRecs : FileData → List AISRecord
  | .finalized recs => recs
  | _ => []

/-- Every record the system holds: the live buffer plus all finalized partitions. -/
def allRecs (s : CState) : List AISRecord :=
  s.aisRecords ++ s.files.flatMap (fun pc => fileRecs pc.2)

theorem allRecs_saveToParquet_sub {o : WriteOracle} {now : DT} {s : CState} {r : AISRecord}
    (h : r ∈ allRecs (saveToParquet o now s)) : r ∈ allRecs s := by
  unfold saveToParquet at h
  split at h
  · exact h
  · split at h
    · exact h
    · split at h
      · unfold allRecs at h ⊢
        rcases List.mem_append.mp h with h' | h'
        · exact List.mem_append.mpr (Or.inl h')
        · rcases List.mem_flatMap.mp h' with ⟨⟨q, c⟩, hq, hr⟩
          rcases mem_of_mem_setFile hq with he | he
          · rw [he] at hr
            simp [fileRecs] at hr
          · exact List.mem_append.mpr (Or.inr (List.mem_flatMap.mpr ⟨⟨q, c⟩, he, hr⟩))
      · split at h
        · unfold allRecs at h ⊢
          rcases List.mem_append.mp h with h' | h'
          · exact List.mem_append.mpr (Or.inl h')
          · rcases List.mem_flatMap.mp h' with ⟨⟨q, c⟩, hq, hr⟩
            rcases mem_of_mem_setFile hq with he | he
            · rw [he] at hr
              simp [fileRecs] at hr
            · exact List.mem_append.mpr (Or.inr (List.mem_flatMap.mpr ⟨⟨q, c⟩, he, hr⟩))
        · unfold allRecs at h ⊢
          rcases List.mem_append.mp h with h' | h'
          · simp at h'
          · rcases List.mem_flatMap.mp h' with ⟨⟨q, c⟩, hq, hr⟩
            rcases mem_of_mem_setFile hq with he | he
            · rw [he] at hr
              simp only [fileRecs, List.mem_filter] at hr
              exact List.mem_append.mpr (Or.inl hr.1)
            · exact List.mem_append.mpr (Or.inr (List.mem_flatMap.mpr ⟨⟨q, c⟩, he, hr⟩))

theorem saveToParquet_count_length (o : WriteOracle) (now : DT) (s : CState)
    (h : s.recordCount = s.aisRecords.length) :
    (saveToParquet o now s).recordCount = (saveToParquet o now s).aisRecords.length := by
  unfold saveToParquet
  split
  · exact h
  · split
    · exact h
    · split
      · simpa using h
      · split
        · simpa using h
        · simp

theorem handle_count_length (parse : String → Option Json) (o : WriteOracle) (now : DT)
    (s : CState) (m : String) (h : s.recordCount = s.aisRecords.length) :
    (handleAISMessage parse o now s m).recordCount =
      (handleAISMessage parse o now s m).aisRecords.length := by
  unfold handleAISMessage
  cases hp : parse m with
  | none => exact h
  | some j =>
    cases j with
    | obj data =>
      dsimp only
      split
      · exact h
      · split
        · split
          · apply saveToParquet_count_length
            simp [h]
          · simp [h]
        · split
          · apply saveToParquet_count_length
            simp [h]
          · simp [h]
    | null => exact h
    | bool b => exact h
    | num q => exact h
    | str t => exact h
    | arr elems => exact h

/-- A message fails to decode when its payload is not a JSON object (so
`json.Unmarshal` into a map errors) or the MMSI cannot be extracted. -/
def decodeFails (parse : String → Option Json) (m : String) : Prop :=
  ∀ data, parse m = some (Json.obj data) → extractMMSI data = ""

theorem handle_noop_of_decodeFails {parse : String → Option Json} {o : WriteOracle}
    {now : DT} {m : String} (hdf : decodeFails parse m) (s : CState) :
    handleAISMessage parse o now s m = s := by
  unfold handleAISMessage
  cases hp : parse m with
  | none => rfl
  | some j =>
    cases j with
    | obj data => simp [hdf data hp]
    | null => rfl
    | bool b => rfl
    | num q => rfl
    | str t => rfl
    | arr elems => rfl

theorem allRecs_handle_sub {parse : String → Option Json} {o : WriteOracle} {now : DT}
    {s : CState} {m : String} {r : AISRecord}
    (h : r ∈ allRecs (handleAISMessage parse o now s m)) :
    r ∈ allRecs s ∨ r.RawJSON = m := by
  unfold handleAISMessage at h
  cases hp : parse m with
  | none => rw [hp] at h; exact Or.inl h
  | some j =>
    rw [hp] at h
    cases j with
    | obj data =>
      dsimp only at h
      split at h
      · exact Or.inl h
      · have key : ∀ s2 : CState,
            s2.aisRecords = s.aisRecords ++ [⟨rfc3339 now, extractMMSI data, m⟩] →
            s2.files = s.files → r ∈ allRecs s2 → r ∈ allRecs s ∨ r.RawJSON = m := by
          intro s2 hrec hfil hmem
          unfold allRecs at hmem
          rw [hrec, hfil] at hmem
          rcases List.mem_append.mp hmem with h' | h'
          · rcases List.mem_append.mp h' with h'' | h''
            · exact Or.inl (List.mem_append.mpr (Or.inl h''))
            · simp at h''
              subst h''
              exact Or.inr rfl
          · exact Or.inl (List.mem_append.mpr (Or.inr h'))
        split at h
        · split at h
          · refine key _ ?_ ?_ (allRecs_saveToParquet_sub h) <;> rfl
          · refine key _ ?_ ?_ h <;> rfl
        · split at h
          · refine key _ ?_ ?_ (allRecs_saveToParquet_sub h) <;> rfl
          · refine key _ ?_ ?_ h <;> rfl
    | null => exact Or.inl h
    | bool b => exact Or.inl h
    | num q => exact Or.inl h
    | str t => exact Or.inl h
    | arr elems => exact Or.inl h

theorem allRecs_runMessages {parse : String → Option Json} {o : WriteOracle} {now : DT}
    {m : String} (hdf : decodeFails parse m) :
    ∀ (msgs : List String) (s : CState), (∀ rec ∈ allRecs s, rec.RawJSON ≠ m) →
      ∀ rec ∈ allRecs (runMessages parse o now s msgs), rec.RawJSON ≠ m := by
  intro msgs
  induction msgs with
  | nil => intro s h rec hrec; exact h rec hrec
  | cons hd tl ih =>
    intro s h rec hrec
    refine ih (handleAISMessage parse o now s hd) ?_ rec hrec
    intro r hr
    by_cases he : hd = m
    · subst he
      rw [handle_noop_of_decodeFails hdf] at hr
      exact h r hr
    · rcases allRecs_handle_sub hr with h' | h'
      · exact h r h'
      · rw [h']; exact he

/- ===== Concrete fixtures for witnesses and counterexamples ===== -/

def dt0 : DT := ⟨⟨2023, 9, 1⟩, 12, 30, 45⟩

def rec1 : AISRecord := ⟨"2023-09-01T00:00:00Z", "111111111", "raw1"⟩

def rec2 : AISRecord := ⟨"2023-09-01T00:00:01Z", "222222222", "raw2"⟩

def sTwo : CState := ⟨[rec1, rec2], 2, 0, []⟩

def fwFailOracle : WriteOracle := ⟨true, false, fun _ => false, false⟩

def rejFirstOracle : WriteOracle := ⟨false, false, fun r => r.MMSI == "111111111", false⟩

/- ===== C9 ===== -/

/-- C9: a flush invoked while the buffer is empty (recordCount = 0) is a
no-op: the state — buffer, counters, and the filesystem — is unchanged, so
in particular no partition file is created. -/
theorem c9_emptyFlush_noop (o : WriteOracle) (now : DT) (s : CState)
    (h : s.recordCount = 0) : saveToParquet o now s = s :=
  saveToParquet_of_count_zero o now s h

theorem c9_emptyFlush_noop_witness : saveToParquet noErrOracle dt0 initState = initState :=
  c9_emptyFlush_noop noErrOracle dt0 initState rfl

/- ===== C7 ===== -/

/-- C7: the invariant recordCount = length aisRecords holds initially and
is preserved by every append (`handleAISMessage`) and every flush
(`saveToParquet`), the only operations that touch the buffer. -/
theorem c7_count_length_invariant :
    initState.recordCount = initState.aisRecords.length ∧
    (∀ (parse : String → Option Json) (o : WriteOracle) (now : DT) (s : CState) (m : String),
      s.recordCount = s.aisRecords.length →
      (handleAISMessage parse o now s m).recordCount =
        (handleAISMessage parse o now s m).aisRecords.length) ∧
    (∀ (o : WriteOracle) (now : DT) (s : CState),
      s.recordCount = s.aisRecords.length →
      (saveToParquet o now s).recordCount = (saveToParquet o now s).aisRecords.length) :=
  ⟨rfl, fun parse o now s m h => handle_count_length parse o now s m h,
    fun o now s h => saveToParquet_count_length o now s h⟩

theorem c7_count_length_invariant_witness :
    (handleAISMessage (fun _ => none) noErrOracle dt0 sTwo "x").recordCount =
      (handleAISMessage (fun _ => none) noErrOracle dt0 sTwo "x").aisRecords.length :=
  c7_count_length_invariant.2.1 (fun _ => none) noErrOracle dt0 sTwo "x" (by decide)

/- ===== C2 ===== -/

/-- C2 counterexample: a flush whose file-writer creation fails returns
with the captured records still present in the buffer, contradicting
"after the failed flush returns, the buffer does not retain those
records". -/
theorem c2_counterexample :
    (saveToParquet fwFailOracle dt0 sTwo).aisRecords = [rec1, rec2] ∧
    sTwo.aisRecords = [rec1, rec2] := by decide

/-- C2 (amended): when the partition write fails (file-writer creation,
writer initialization, or finalization), `saveToParquet` returns early
without clearing the buffer: the records are retained, not discarded, and
the next successful flush writes exactly those retained records. -/
theorem c2_failedFlush_retains (o : WriteOracle) (now now2 : DT) (s : CState)
    (hfail : o.fwErr = true ∨ o.pwErr = true ∨ o.stopErr = true)
    (h0 : s.recordCount ≠ 0) :
    (saveToParquet o now s).aisRecords = s.aisRecords ∧
    (saveToParquet o now s).recordCount = s.recordCount ∧
    (saveToParquet noErrOracle now2 (saveToParquet o now s)).aisRecords = [] ∧
    (getNewFilePath now2, FileData.finalized s.aisRecords) ∈
      (saveToParquet noErrOracle now2 (saveToParquet o now s)).files := by
  obtain ⟨hrec, hcnt⟩ := saveToParquet_records o now s hfail
  refine ⟨hrec, hcnt, ?_, ?_⟩
  · rw [saveToParquet_success noErrOracle now2 (saveToParquet o now s)
      (by rw [hcnt]; exact h0) rfl rfl rfl]
  · rw [saveToParquet_success noErrOracle now2 (saveToParquet o now s)
      (by rw [hcnt]; exact h0) rfl rfl rfl]
    have : (saveToParquet o now s).aisRecords.filter
        (fun r => !noErrOracle.recErr r) = s.aisRecords := by
      rw [hrec]
      simp [noErrOracle]
    rw [this]
    exact self_mem_setFile _ _ _

theorem c2_failedFlush_retains_witness :
    (saveToParquet fwFailOracle dt0 sTwo).aisRecords = sTwo.aisRecords ∧
    (saveToParquet fwFailOracle dt0 sTwo).recordCount = sTwo.recordCount ∧
    (saveToParquet noErrOracle dt0 (saveToParquet fwFailOracle dt0 sTwo)).aisRecords = [] ∧
    (getNewFilePath dt0, FileData.finalized sTwo.aisRecords) ∈
      (saveToParquet noErrOracle dt0 (saveToParquet fwFailOracle dt0 sTwo)).files :=
  c2_failedFlush_retains fwFailOracle dt0 dt0 sTwo (Or.inl rfl) (by decide)

/- ===== C3 ===== -/

/-- C3 counterexample: with an encoder that rejects the first of two
buffered records, the write does not fail: the flush finalizes a partition
holding only the second record — a proper subset of the given records —
and clears the buffer, so `saveToParquet` both "succeeds" on an encoder
rejection and produces a subset partition. -/
theorem c3_counterexample :
    saveToParquet rejFirstOracle dt0 sTwo =
      ⟨[], 0, 0, [(getNewFilePath dt0, FileData.finalized [rec2])]⟩ ∧
    sTwo.aisRecords = [rec1, rec2] ∧ rec1 ≠ rec2 := by decide

/-- C3 (amended): the write is not all-or-nothing.  A record rejected by
the encoder is skipped while the remaining records are written and the
file is finalized (yielding a partition with a subsequence of the given
records) and the buffer is still cleared; a finalization failure leaves a
non-partition file at the target path with the buffer retained; a
writer-initialization failure leaves an empty file at the target path; a
file-writer creation failure leaves the state unchanged. -/
theorem c3_write_not_atomic (o : WriteOracle) (now : DT) (s : CState)
    (h0 : s.recordCount ≠ 0) :
    (o.fwErr = false → o.pwErr = false → o.stopErr = false →
      saveToParquet o now s =
        { s with
          files := setFile s.files (getNewFilePath now)
            (FileData.finalized (s.aisRecords.filter (fun r => !o.recErr r))),
          aisRecords := [], recordCount := 0 } ∧
      (s.aisRecords.filter (fun r => !o.recErr r)).Sublist s.aisRecords) ∧
    (o.fwErr = false → o.pwErr = false → o.stopErr = true →
      (getNewFilePath now, FileData.unfinalized) ∈ (saveToParquet o now s).files ∧
      (saveToParquet o now s).aisRecords = s.aisRecords) ∧
    (o.fwErr = false → o.pwErr = true →
      (getNewFilePath now, FileData.created) ∈ (saveToParquet o now s).files ∧
      (saveToParquet o now s).aisRecords = s.aisRecords) ∧
    (o.fwErr = true → saveToParquet o now s = s) := by
  refine ⟨fun h1 h2 h3 => ⟨saveToParquet_success o now s h0 h1 h2 h3, List.filter_sublist _⟩,
    fun h1 h2 h3 => ?_, fun h1 h2 => ?_, fun h1 => ?_⟩
  · refine ⟨?_, (saveToParquet_records o now s (Or.inr (Or.inr h3))).1⟩
    unfold saveToParquet
    simp [h0, h1, h2, h3, self_mem_setFile]
  · refine ⟨?_, (saveToParquet_records o now s (Or.inr (Or.inl h2))).1⟩
    unfold saveToParquet
    simp [h0, h1, h2, self_mem_setFile]
  · unfold saveToParquet
    simp [h0, h1]

theorem c3_write_not_atomic_witness :
    ((rejFirstOracle.fwErr = false → rejFirstOracle.pwErr = false →
      rejFirstOracle.stopErr = false →
      saveToParquet rejFirstOracle dt0 sTwo =
        { sTwo with
          files := setFile sTwo.files (getNewFilePath dt0)
            (FileData.finalized (sTwo.aisRecords.filter (fun r => !rejFirstOracle.recErr r))),
          aisRecords := [], recordCount := 0 } ∧
      (sTwo.aisRecords.filter (fun r => !rejFirstOracle.recErr r)).Sublist sTwo.aisRecords) ∧
    (rejFirstOracle.fwErr = false → rejFirstOracle.pwErr = false →
      rejFirstOracle.stopErr = true →
      (getNewFilePath dt0, FileData.unfinalized) ∈ (saveToParquet rejFirstOracle dt0 sTwo).files ∧
      (saveToParquet rejFirstOracle dt0 sTwo).aisRecords = sTwo.aisRecords) ∧
    (rejFirstOracle.fwErr = false → rejFirstOracle.pwErr = true →
      (getNewFilePath dt0, FileData.created) ∈ (saveToParquet rejFirstOracle dt0 sTwo).files ∧
      (saveToParquet rejFirstOracle dt0 sTwo).aisRecords = sTwo.aisRecords) ∧
    (rejFirstOracle.fwErr = true → saveToParquet rejFirstOracle dt0 sTwo = sTwo)) :=
  c3_write_not_atomic rejFirstOracle dt0 sTwo (by decide)

/- ===== C6 ===== -/

/-- C6: a message that fails to decode — not a JSON object, or the MMSI
field path missing/malformed — is silently dropped: handling it leaves the
state (buffer, count, files) untouched, and across any ingestion run no
record carrying its payload ever appears in the buffer or in any finalized
partition. -/
theorem c6_decodeFailure_dropped (parse : String → Option Json) (o : WriteOracle)
    (now : DT) (m : String) (hdf : decodeFails parse m) :
    (∀ s : CState, handleAISMessage parse o now s m = s) ∧
    (∀ (msgs : List String) (s : CState), (∀ rec ∈ allRecs s, rec.RawJSON ≠ m) →
      ∀ rec ∈ allRecs (runMessages parse o now s msgs), rec.RawJSON ≠ m) :=
  ⟨fun s => handle_noop_of_decodeFails hdf s,
    fun msgs s h => allRecs_runMessages hdf msgs s h⟩

theorem c6_decodeFailure_dropped_witness :
    handleAISMessage (fun _ => none) noErrOracle dt0 initState "bad" = initState :=
  (c6_decodeFailure_dropped (fun _ => none) noErrOracle dt0 "bad"
    (fun _ h => Option.noConfusion h)).1 initState

/- ===== Decoded-key helpers (C4, C10) ===== -/

theorem natCharsAux_ne_nil (fuel n : Nat) : natCharsAux (fuel + 1) n ≠ [] := by
  unfold natCharsAux
  split
  · simp
  · simp

theorem goFmtF0_ne_empty (q : ℚ) : goFmtF0 q ≠ "" := by
  unfold goFmtF0
  intro h
  have h' : intChars (roundHalfEven q) = [] := by
    have := congrArg String.data h
    simpa using this
  unfold intChars at h'
  split at h'
  · simp at h'
  · exact natCharsAux_ne_nil _ _ h'

/-- The key `handleAISMessage` derives from a payload: the extracted MMSI
when the payload is a JSON object, "" otherwise. -/
def decodedMMSI (parse : String → Option Json) (m : String) : String :=
  match parse m with
  | some (Json.obj data) => extractMMSI data
  | _ => ""

/-- A payload the collector buffers: it decodes and yields a non-empty key. -/
def decodeOk (parse : String → Option Json) (m : String) : Prop :=
  decodedMMSI parse m ≠ ""

/-- The record `handleAISMessage` buffers for a decodable payload. -/
def mkRecord (parse : String → Option Json) (now : DT) (m : String) : AISRecord :=
  ⟨rfc3339 now, decodedMMSI parse m, m⟩

theorem extractMMSI_cases (data : List (String × Json)) :
    extractMMSI data = "" ∨
    ∃ msg pos q, data.lookup "Message" = some (Json.obj msg) ∧
      msg.lookup "PositionReport" = some (Json.obj pos) ∧
      pos.lookup "UserID" = some (Json.num q) ∧
      extractMMSI data = goFmtF0 q := by
  cases h1 : data.lookup "Message" with
  | none => left; simp [extractMMSI, h1]
  | some j1 =>
    cases j1 with
    | obj msg =>
      cases h2 : msg.lookup "PositionReport" with
      | none => left; simp [extractMMSI, h1, h2]
      | some j2 =>
        cases j2 with
        | obj pos =>
          cases h3 : pos.lookup "UserID" with
          | none => left; simp [extractMMSI, h1, h2, h3]
          | some j3 =>
            cases j3 with
            | num q =>
              refine Or.inr ⟨msg, pos, q, rfl, h2, h3, ?_⟩
              simp [extractMMSI, h1, h2, h3]
            | null => left; simp [extractMMSI, h1, h2, h3]
            | bool b => left; simp [extractMMSI, h1, h2, h3]
            | str t => left; simp [extractMMSI, h1, h2, h3]
            | arr elems => left; simp [extractMMSI, h1, h2, h3]
            | obj fields => left; simp [extractMMSI, h1, h2, h3]
        | null => left; simp [extractMMSI, h1, h2]
        | bool b => left; simp [extractMMSI, h1, h2]
        | num q => left; simp [extractMMSI, h1, h2]
        | str t => left; simp [extractMMSI, h1, h2]
        | arr elems => left; simp [extractMMSI, h1, h2]
    | null => left; simp [extractMMSI, h1]
    | bool b => left; simp [extractMMSI, h1]
    | num q => left; simp [extractMMSI, h1]
    | str t => left; simp [extractMMSI, h1]
    | arr elems => left; simp [extractMMSI, h1]

theorem handle_ok_eq (parse : String → Option Json) (o : WriteOracle) (now : DT)
    (s : CState) (m : String) (hok : decodeOk parse m) :
    handleAISMessage parse o now s m =
      (let s2 : CState := { s with
        aisRecords := s.aisRecords ++ [mkRecord parse now m],
        recordCount := s.recordCount + 1,
        lastLogPercent :=
          if (s.recordCount + 1) * 100 / MaxRecordsPerFile / 10 != s.lastLogPercent / 10
          then (s.recordCount + 1) * 100 / MaxRecordsPerFile else s.lastLogPercent }
       if MaxRecordsPerFile ≤ s.recordCount + 1 then saveToParquet o now s2 else s2) := by
  unfold decodeOk decodedMMSI at hok
  unfold handleAISMessage mkRecord decodedMMSI
  cases hp : parse m with
  | none => rw [hp] at hok; exact absurd rfl hok
  | some j =>
    rw [hp] at hok
    cases j with
    | obj data =>
      dsimp only
      rw [if_neg (fun hcontra => hok (by simpa using hcontra))]
      rcases Bool.eq_false_or_eq_true
          ((s.recordCount + 1) * 100 / MaxRecordsPerFile / 10 != s.lastLogPercent / 10)
        with hc | hc <;> simp only [hc] <;> rfl
    | null => exact absurd rfl hok
    | bool b => exact absurd rfl hok
    | num q => exact absurd rfl hok
    | str t => exact absurd rfl hok
    | arr elems => exact absurd rfl hok

theorem decile_step (k : Nat) :
    (if (k + 1) * 100 / 100000 / 10 != (k * 100 / 100000 / 10 * 10) / 10
      then (k + 1) * 100 / 100000
      else k * 100 / 100000 / 10 * 10) = (k + 1) * 100 / 100000 / 10 * 10 := by
  by_cases hc : (k + 1) * 100 / 100000 / 10 = k * 100 / 100000 / 10 * 10 / 10
  · rw [if_neg (by rw [bne_iff_ne]; omega)]
    omega
  · rw [if_pos (by rw [bne_iff_ne]; omega)]
    omega

theorem run_fill (parse : String → Option Json) (now : DT) :
    ∀ (msgs : List String) (s : CState),
    (∀ m ∈ msgs, decodeOk parse m) →
    s.recordCount = s.aisRecords.length →
    s.lastLogPercent = s.recordCount * 100 / MaxRecordsPerFile / 10 * 10 →
    s.recordCount + msgs.length = MaxRecordsPerFile →
    msgs ≠ [] →
    runMessages parse noErrOracle now s msgs =
      { aisRecords := [], recordCount := 0, lastLogPercent := 100,
        files := setFile s.files (getNewFilePath now)
          (FileData.finalized (s.aisRecords ++ msgs.map (mkRecord parse now))) } := by
  intro msgs
  induction msgs with
  | nil =>
    intro s _ _ _ _ hne
    exact absurd rfl hne
  | cons hd tl ih =>
    intro s hok hinv hlog hlen _
    have hstep := handle_ok_eq parse noErrOracle now s hd (hok hd (List.mem_cons_self _ _))
    show runMessages parse noErrOracle now (handleAISMessage parse noErrOracle now s hd) tl = _
    cases tl with
    | nil =>
      have hmax : s.recordCount + 1 = MaxRecordsPerFile := by
        simpa using hlen
      show handleAISMessage parse noErrOracle now s hd = _
      rw [hstep]
      dsimp only
      rw [if_pos (le_of_eq hmax.symm)]
      rw [saveToParquet_success _ _ _ (by simp [hmax, MaxRecordsPerFile]) rfl rfl rfl]
      have hcond :
          ((s.recordCount + 1) * 100 / MaxRecordsPerFile / 10 != s.lastLogPercent / 10)
            = true := by
        rw [hlog]
        unfold MaxRecordsPerFile at hmax ⊢
        rw [bne_iff_ne]
        omega
      have hcp : (s.recordCount + 1) * 100 / MaxRecordsPerFile = 100 := by
        unfold MaxRecordsPerFile at hmax ⊢
        omega
      simp only [hcond]
      simp [hcp, noErrOracle]
    | cons m2 t2 =>
      have hlt : s.recordCount + 1 < MaxRecordsPerFile := by
        simp only [List.length_cons] at hlen
        omega
      rw [hstep]
      dsimp only
      rw [if_neg (by omega)]
      rw [ih _ (fun m hm => hok m (List.mem_cons_of_mem _ hm)) (by simp [hinv])
        (by dsimp only; rw [hlog]; unfold MaxRecordsPerFile; exact decile_step s.recordCount)
        (by simp only [List.length_cons] at hlen ⊢; omega) (by simp)]
      simp

/- ===== C4 ===== -/

/-- C4: appending exactly MaxRecordsPerFile (100000) decodable messages to
a fresh collector, with no time-trigger interference and successful I/O,
triggers exactly one flush, synchronously inside the crossing append,
producing exactly one partition file holding those records in arrival
order and leaving the buffer empty (count = 0, record sequence empty). -/
theorem c4_capacity_trigger (parse : String → Option Json) (now : DT) (msgs : List String)
    (hlen : msgs.length = MaxRecordsPerFile) (hok : ∀ m ∈ msgs, decodeOk parse m) :
    runMessages parse noErrOracle now initState msgs =
      { aisRecords := [], recordCount := 0, lastLogPercent := 100,
        files := [(getNewFilePath now, FileData.finalized (msgs.map (mkRecord parse now)))] } := by
  have hne : msgs ≠ [] := by
    intro h
    rw [h] at hlen
    simp [MaxRecordsPerFile] at hlen
  have := run_fill parse now msgs initState hok rfl rfl (by simpa [initState] using hlen) hne
  simpa [initState, setFile] using this

/-- A parse function returning a fixed well-formed position report. -/
def goodParse : String → Option Json := fun _ =>
  some (Json.obj [("Message", Json.obj
    [("PositionReport", Json.obj [("UserID", Json.num 273450000)])])])

theorem c4_capacity_trigger_witness :
    (List.replicate 100000 "p").length = MaxRecordsPerFile ∧
    runMessages goodParse noErrOracle dt0 initState (List.replicate 100000 "p") =
      { aisRecords := [], recordCount := 0, lastLogPercent := 100,
        files := [(getNewFilePath dt0,
          FileData.finalized ((List.replicate 100000 "p").map (mkRecord goodParse dt0)))] } :=
  ⟨by rw [List.length_replicate, MaxRecordsPerFile],
   c4_capacity_trigger goodParse dt0 _ (by rw [List.length_replicate, MaxRecordsPerFile])
     (fun m hm => by
       show decodedMMSI goodParse m ≠ ""
       have h : decodedMMSI goodParse m = goFmtF0 273450000 := rfl
       rw [h]
       exact goFmtF0_ne_empty _)⟩

/- ===== C10 ===== -/

/-- C10: an inbound message is buffered iff its payload parses as a JSON
object carrying the field path Message.PositionReport.UserID with a JSON
number value; the stored key is that number formatted with no fractional
digits; a payload whose identifier sits anywhere else (or that is not a
JSON object) is dropped with the state untouched.  (Stated below the flush
threshold so that buffering is observable in the live buffer.) -/
theorem c10_buffered_iff_userid (parse : String → Option Json) (o : WriteOracle)
    (now : DT) (s : CState) (m : String)
    (hroom : s.recordCount + 1 < MaxRecordsPerFile) :
    (∀ data msg pos q,
      parse m = some (Json.obj data) →
      data.lookup "Message" = some (Json.obj msg) →
      msg.lookup "PositionReport" = some (Json.obj pos) →
      pos.lookup "UserID" = some (Json.num q) →
      (handleAISMessage parse o now s m).aisRecords =
        s.aisRecords ++ [⟨rfc3339 now, goFmtF0 q, m⟩] ∧
      (handleAISMessage parse o now s m).recordCount = s.recordCount + 1) ∧
    ((¬ ∃ data msg pos q, parse m = some (Json.obj data) ∧
        data.lookup "Message" = some (Json.obj msg) ∧
        msg.lookup "PositionReport" = some (Json.obj pos) ∧
        pos.lookup "UserID" = some (Json.num q)) →
      handleAISMessage parse o now s m = s) := by
  constructor
  · intro data msg pos q hp h1 h2 h3
    have hmm : extractMMSI data = goFmtF0 q := by
      simp [extractMMSI, h1, h2, h3]
    have hne : extractMMSI data ≠ "" := by
      rw [hmm]
      exact goFmtF0_ne_empty q
    have hok : decodeOk parse m := by
      unfold decodeOk decodedMMSI
      rw [hp]
      simpa using hne
    have hrec : mkRecord parse now m = ⟨rfc3339 now, goFmtF0 q, m⟩ := by
      unfold mkRecord decodedMMSI
      rw [hp]
      simp [hmm]
    rw [handle_ok_eq parse o now s m hok]
    dsimp only
    rw [if_neg (by omega), hrec]
    exact ⟨rfl, rfl⟩
  · intro hnone
    apply handle_noop_of_decodeFails
    intro data hp
    rcases extractMMSI_cases data with h | ⟨msg, pos, q, h1, h2, h3, _⟩
    · exact h
    · exact absurd ⟨data, msg, pos, q, hp, h1, h2, h3⟩ hnone

theorem c10_buffered_iff_userid_witness :
    (∀ data msg pos q,
      goodParse "p" = some (Json.obj data) →
      data.lookup "Message" = some (Json.obj msg) →
      msg.lookup "PositionReport" = some (Json.obj pos) →
      pos.lookup "UserID" = some (Json.num q) →
      (handleAISMessage goodParse noErrOracle dt0 sTwo "p").aisRecords =
        sTwo.aisRecords ++ [⟨rfc3339 dt0, goFmtF0 q, "p"⟩] ∧
      (handleAISMessage goodParse noErrOracle dt0 sTwo "p").recordCount =
        sTwo.recordCount + 1) ∧
    ((¬ ∃ data msg pos q, goodParse "p" = some (Json.obj data) ∧
        data.lookup "Message" = some (Json.obj msg) ∧
        msg.lookup "PositionReport" = some (Json.obj pos) ∧
        pos.lookup "UserID" = some (Json.num q)) →
      handleAISMessage goodParse noErrOracle dt0 sTwo "p" = sTwo) :=
  c10_buffered_iff_userid goodParse noErrOracle dt0 sTwo "p" (by decide)

/- ===== Lexicographic order on character lists ===== -/

theorem lex_append_left (s : List Char) {u v : List Char}
    (h : List.Lex (· < ·) u v) : List.Lex (· < ·) (s ++ u) (s ++ v) := by
  induction s with
  | nil => simpa using h
  | cons c cs ih => exact List.Lex.cons ih

theorem lex_append_congr : ∀ {s t : List Char} (u v : List Char),
    s.length = t.length → List.Lex (· < ·) s t →
    List.Lex (· < ·) (s ++ u) (t ++ v) := by
  intro s t u v hlen h
  revert hlen
  induction h with
  | nil => intro hlen; simp at hlen
  | rel hr => intro _; exact List.Lex.rel hr
  | cons h ih => intro hlen; exact List.Lex.cons (ih (by simpa using hlen))

theorem padNum_length (w n : Nat) : (padNum w n).length = w := by
  induction w generalizing n with
  | zero => rfl
  | succ w ih => simp [padNum, ih]

theorem digitChar_lt {a b : Nat} (ha : a < 10) (hb : b < 10) (h : a < b) :
    Nat.digitChar a < Nat.digitChar b := by
  have key : ∀ a < 10, ∀ b < 10, a < b → Nat.digitChar a < Nat.digitChar b := by decide
  exact key a ha b hb h

theorem padNum_mod (w n : Nat) : padNum w n = padNum w (n % 10 ^ w) := by
  induction w generalizing n with
  | zero => rfl
  | succ w ih =>
    unfold padNum
    congr 1
    · congr 1
      rw [pow_succ, Nat.mod_mul_right_div_self, Nat.mod_mod_of_dvd _ dvd_rfl]
    · rw [ih n, ih (n % 10 ^ (w + 1))]
      congr 1
      rw [pow_succ]
      exact (Nat.mod_mod_of_dvd n (dvd_mul_right (10 ^ w) 10)).symm

theorem padNum_lt : ∀ (w : Nat) {n m : Nat}, n < m → m < 10 ^ w →
    List.Lex (· < ·) (padNum w n) (padNum w m) := by
  intro w
  induction w with
  | zero =>
    intro n m h hm
    simp only [pow_zero, Nat.lt_one_iff] at hm
    omega
  | succ w ih =>
    intro n m h hm
    unfold padNum
    have hpow : 0 < (10 : Nat) ^ w := pow_pos (by norm_num) w
    have hmd : m / 10 ^ w < 10 := by
      rw [Nat.div_lt_iff_lt_mul hpow]
      calc m < 10 ^ (w + 1) := hm
        _ = 10 * 10 ^ w := by ring
    have hnd : n / 10 ^ w ≤ m / 10 ^ w := Nat.div_le_div_right (le_of_lt h)
    rcases lt_or_eq_of_le hnd with hlt | heq
    · apply List.Lex.rel
      have e1 : n / 10 ^ w % 10 = n / 10 ^ w := Nat.mod_eq_of_lt (lt_of_le_of_lt hnd hmd)
      have e2 : m / 10 ^ w % 10 = m / 10 ^ w := Nat.mod_eq_of_lt hmd
      rw [e1, e2]
      exact digitChar_lt (lt_of_le_of_lt hnd hmd) hmd hlt
    · rw [heq]
      apply List.Lex.cons
      rw [padNum_mod w n, padNum_mod w m]
      apply ih
      · have e1 := Nat.div_add_mod n (10 ^ w)
        have e2 := Nat.div_add_mod m (10 ^ w)
        have h' : 10 ^ w * (n / 10 ^ w) + n % 10 ^ w
            < 10 ^ w * (n / 10 ^ w) + m % 10 ^ w := by
          rw [e1, heq, e2]
          exact h
        exact Nat.lt_of_add_lt_add_left h'
      · exact Nat.mod_lt _ hpow

/- ===== Monotonicity of the date and timestamp formats ===== -/

theorem daysInMonth_bounds (y m : Nat) : 28 ≤ daysInMonth y m ∧ daysInMonth y m ≤ 31 := by
  unfold daysInMonth
  split
  · split <;> omega
  · split <;> omega

theorem dateChars_length (d : Date) : (dateChars d).length = 10 := by
  simp [dateChars, padNum_length]

theorem dateChars_decomp (d : Date) :
    dateChars d = (padNum 4 d.year ++ ['-']) ++
      ((padNum 2 d.month ++ ['-']) ++ padNum 2 d.day) := by
  simp [dateChars]

theorem dateChars_lt {d1 d2 : Date} (h1 : validDate d1) (h2 : validDate d2)
    (hy2 : d2.year ≤ 9999) (h : dateLtP d1 d2) :
    List.Lex (· < ·) (dateChars d1) (dateChars d2) := by
  obtain ⟨hm1lo, hm1hi, hd1lo, hd1hi⟩ := h1
  obtain ⟨hm2lo, hm2hi, hd2lo, hd2hi⟩ := h2
  have hdm2 := (daysInMonth_bounds d2.year d2.month).2
  rw [dateChars_decomp, dateChars_decomp]
  rcases h with hy | ⟨hyeq, hmo⟩
  · exact lex_append_congr _ _ (by simp [padNum_length])
      (lex_append_congr _ _ (by simp [padNum_length])
        (padNum_lt 4 hy (by norm_num; omega)))
  · rw [hyeq]
    apply lex_append_left
    rcases hmo with hm | ⟨hmeq, hd⟩
    · exact lex_append_congr _ _ (by simp [padNum_length])
        (lex_append_congr _ _ (by simp [padNum_length])
          (padNum_lt 2 hm (by norm_num; omega)))
    · rw [hmeq]
      apply lex_append_left
      exact padNum_lt 2 hd (by norm_num; omega)

theorem dtChars_length (t : DT) : (dtChars t).length = 19 := by
  simp [dtChars, dateChars_length, padNum_length]

theorem dtChars_decomp (t : DT) :
    dtChars t = (dateChars t.date ++ ['_']) ++
      ((padNum 2 t.hh ++ ['-']) ++ ((padNum 2 t.mm ++ ['-']) ++ padNum 2 t.ss)) := by
  simp [dtChars]

theorem dtChars_lt {t1 t2 : DT} (h1 : validDT t1) (h2 : validDT t2)
    (hy2 : t2.date.year ≤ 9999) (h : dtLtP t1 t2) :
    List.Lex (· < ·) (dtChars t1) (dtChars t2) := by
  obtain ⟨hv1, hh1, hm1, hs1⟩ := h1
  obtain ⟨hv2, hh2, hm2, hs2⟩ := h2
  rw [dtChars_decomp, dtChars_decomp]
  rcases h with hd | ⟨hdeq, ht⟩
  · exact lex_append_congr _ _ (by simp [dateChars_length])
      (lex_append_congr _ _ (by simp [dateChars_length])
        (dateChars_lt hv1 hv2 hy2 hd))
  · rw [hdeq]
    apply lex_append_left
    rcases ht with hh | ⟨hheq, ht2⟩
    · exact lex_append_congr _ _ (by simp [padNum_length])
        (lex_append_congr _ _ (by simp [padNum_length])
          (padNum_lt 2 hh (by norm_num; omega)))
    · rw [hheq]
      apply lex_append_left
      rcases ht2 with hm | ⟨hmeq, hs⟩
      · exact lex_append_congr _ _ (by simp [padNum_length])
          (lex_append_congr _ _ (by simp [padNum_length])
            (padNum_lt 2 hm (by norm_num; omega)))
      · rw [hmeq]
        apply lex_append_left
        exact padNum_lt 2 hs (by norm_num; omega)

theorem getNewFilePath_data (t : DT) :
    (getNewFilePath t).data = "ais_data/".data ++ dtChars t ++ ".parquet".data := by
  simp [getNewFilePath, String.data_append]

theorem strLt_of_lexData {s t : String} (h : List.Lex (· < ·) s.data t.data) : s < t :=
  String.lt_iff_toList_lt.mpr h

/- ===== C8 ===== -/

/-- C8: the partition naming function is a pure function of the instant,
produces names of the form ais_data/YYYY-MM-DD_HH-MM-SS.parquet, and is
monotone: chronologically ordered instants yield lexicographically ordered
filenames, with the date segment of the name equal to the calendar date of
the instant (years up to 9999, the range the 4-digit layout covers). -/
theorem c8_filename_monotone (t1 t2 : DT) (h1 : validDT t1) (h2 : validDT t2)
    (_hy1 : t1.date.year ≤ 9999) (hy2 : t2.date.year ≤ 9999) (hle : dtLeP t1 t2) :
    getNewFilePath t1 ≤ getNewFilePath t2 ∧
    (getNewFilePath t1).data =
      "ais_data/".data ++ (dateChars t1.date ++ '_' ::
        (padNum 2 t1.hh ++ '-' :: padNum 2 t1.mm ++ '-' :: padNum 2 t1.ss))
        ++ ".parquet".data := by
  constructor
  · rcases hle with hlt | heq
    · apply le_of_lt
      apply strLt_of_lexData
      rw [getNewFilePath_data, getNewFilePath_data,
        List.append_assoc, List.append_assoc]
      apply lex_append_left
      exact lex_append_congr _ _ (by simp [dtChars_length]) (dtChars_lt h1 h2 hy2 hlt)
    · rw [heq]
  · exact getNewFilePath_data t1

theorem c8_filename_monotone_witness :
    getNewFilePath dt0 ≤ getNewFilePath ⟨⟨2023, 9, 2⟩, 0, 0, 0⟩ ∧
    (getNewFilePath dt0).data =
      "ais_data/".data ++ (dateChars dt0.date ++ '_' ::
        (padNum 2 dt0.hh ++ '-' :: padNum 2 dt0.mm ++ '-' :: padNum 2 dt0.ss))
        ++ ".parquet".data :=
  c8_filename_monotone dt0 ⟨⟨2023, 9, 2⟩, 0, 0, 0⟩ (by decide) (by decide)
    (by decide) (by decide) (by decide)

/- ===== Chronological order on dates: basic lemmas ===== -/

theorem dateP_trichotomy (a b : Date) : dateLtP a b ∨ a = b ∨ dateLtP b a := by
  obtain ⟨y1, m1, d1⟩ := a
  obtain ⟨y2, m2, d2⟩ := b
  simp only [dateLtP, Date.mk.injEq]
  omega

theorem dateLeP_of_not_ltP {a b : Date} (h : ¬ dateLtP b a) : dateLeP a b := by
  rcases dateP_trichotomy a b with h' | h' | h'
  · exact Or.inl h'
  · exact Or.inr h'
  · exact absurd h' h

theorem dateLeP_trans {a b c : Date} (h1 : dateLeP a b) (h2 : dateLeP b c) :
    dateLeP a c := by
  obtain ⟨y1, m1, d1⟩ := a
  obtain ⟨y2, m2, d2⟩ := b
  obtain ⟨y3, m3, d3⟩ := c
  simp only [dateLeP, dateLtP, Date.mk.injEq, true_and, and_true, lt_self_iff_false, false_or, or_false] at *
  omega

theorem dateLtP_of_ltP_of_leP {a b c : Date} (h1 : dateLtP a b) (h2 : dateLeP b c) :
    dateLtP a c := by
  obtain ⟨y1, m1, d1⟩ := a
  obtain ⟨y2, m2, d2⟩ := b
  obtain ⟨y3, m3, d3⟩ := c
  simp only [dateLeP, dateLtP, Date.mk.injEq, true_and, and_true, lt_self_iff_false, false_or, or_false] at *
  omega

theorem dayRank_lt_of_dateLtP {a b : Date} (ha : validDate a) (hb : validDate b)
    (h : dateLtP a b) : dayRank a < dayRank b := by
  obtain ⟨y1, m1, d1⟩ := a
  obtain ⟨y2, m2, d2⟩ := b
  have hb1 := daysInMonth_bounds y1 m1
  have hb2 := daysInMonth_bounds y2 m2
  simp only [validDate, dateLtP, dayRank] at *
  omega

theorem dayRank_le_of_leP {a b : Date} (ha : validDate a) (hb : validDate b)
    (h : dateLeP a b) : dayRank a ≤ dayRank b := by
  rcases h with h | rfl
  · exact le_of_lt (dayRank_lt_of_dateLtP ha hb h)
  · exact le_refl _

theorem validDate_nextDay {a : Date} (ha : validDate a) : validDate (nextDay a) := by
  obtain ⟨y, m, d⟩ := a
  have hb1 := daysInMonth_bounds y m
  have hb2 := daysInMonth_bounds y (m + 1)
  have hb3 := daysInMonth_bounds (y + 1) 1
  simp only [validDate] at ha ⊢
  unfold nextDay
  dsimp only
  split
  · simp only [validDate]
    omega
  · split
    · simp only [validDate]
      omega
    · simp only [validDate]
      omega

theorem dateLtP_nextDay (a : Date) : dateLtP a (nextDay a) := by
  obtain ⟨y, m, d⟩ := a
  unfold nextDay
  dsimp only
  split
  · exact Or.inr ⟨rfl, Or.inr ⟨rfl, Nat.lt_succ_self d⟩⟩
  · split
    · exact Or.inr ⟨rfl, Or.inl (Nat.lt_succ_self m)⟩
    · exact Or.inl (Nat.lt_succ_self y)

theorem dayRank_lt_nextDay {a : Date} (ha : validDate a) : dayRank a < dayRank (nextDay a) := by
  exact dayRank_lt_of_dateLtP ha (validDate_nextDay ha) (dateLtP_nextDay a)

theorem nextDay_le_of_lt {a c : Date} (ha : validDate a) (hc : validDate c)
    (h : dateLtP a c) : dateLeP (nextDay a) c := by
  obtain ⟨y1, m1, d1⟩ := a
  obtain ⟨y2, m2, d2⟩ := c
  simp only [validDate] at ha hc
  simp only [dateLtP] at h
  rcases h with hy | ⟨hyeq, hmo⟩
  · unfold nextDay
    try dsimp only at hy ha hc ⊢
    split
    · simp only [dateLeP, dateLtP, Date.mk.injEq, true_and, and_true, lt_self_iff_false, false_or, or_false]
      omega
    · split
      · simp only [dateLeP, dateLtP, Date.mk.injEq, true_and, and_true, lt_self_iff_false, false_or, or_false]
        omega
      · simp only [dateLeP, dateLtP, Date.mk.injEq, true_and, and_true, lt_self_iff_false, false_or, or_false]
        omega
  · try dsimp only at hyeq
    subst hyeq
    rcases hmo with hm | ⟨hmeq, hd⟩
    · unfold nextDay
      try dsimp only at hm ha hc ⊢
      split
      · simp only [dateLeP, dateLtP, Date.mk.injEq, true_and, and_true, lt_self_iff_false, false_or, or_false]
        omega
      · split
        · simp only [dateLeP, dateLtP, Date.mk.injEq, true_and, and_true, lt_self_iff_false, false_or, or_false]
          omega
        · simp only [dateLeP, dateLtP, Date.mk.injEq, true_and, and_true, lt_self_iff_false, false_or, or_false]
          omega
    · try dsimp only at hmeq
      subst hmeq
      unfold nextDay
      try dsimp only at hd ha hc ⊢
      split
      · simp only [dateLeP, dateLtP, Date.mk.injEq, true_and, and_true, lt_self_iff_false, false_or, or_false]
        omega
      · split
        · simp only [dateLeP, dateLtP, Date.mk.injEq, true_and, and_true, lt_self_iff_false, false_or, or_false]
          omega
        · simp only [dateLeP, dateLtP, Date.mk.injEq, true_and, and_true, lt_self_iff_false, false_or, or_false]
          omega

/- ===== The day-iteration loop ===== -/

/-- Fuel sufficient to run the loop from `a` to `b` (proof device). -/
def needFuel (a b : Date) : Nat := dayRank b + 1 - dayRank a

theorem daysRangeAux_nil {f : Nat} {a b : Date} (hba : dateLtP b a) :
    daysRangeAux f a b = [] := by
  cases f with
  | zero => rfl
  | succ g =>
    unfold daysRangeAux
    rw [if_pos hba]

theorem daysRangeAux_stable : ∀ (f1 : Nat) (f2 : Nat) (a b : Date), validDate a →
    validDate b → needFuel a b ≤ f1 → needFuel a b ≤ f2 →
    daysRangeAux f1 a b = daysRangeAux f2 a b := by
  intro f1
  induction f1 with
  | zero =>
    intro f2 a b ha hb h1 h2
    have hba : dateLtP b a := by
      rcases dateP_trichotomy a b with h | h | h
      · have := dayRank_lt_of_dateLtP ha hb h
        unfold needFuel at h1
        omega
      · subst h
        unfold needFuel at h1
        omega
      · exact h
    rw [daysRangeAux_nil hba, daysRangeAux_nil hba]
  | succ f1 ih =>
    intro f2 a b ha hb h1 h2
    by_cases hba : dateLtP b a
    · rw [daysRangeAux_nil hba, daysRangeAux_nil hba]
    · have hle := dateLeP_of_not_ltP hba
      have hrab := dayRank_le_of_leP ha hb hle
      have hrn := dayRank_lt_nextDay ha
      cases f2 with
      | zero =>
        unfold needFuel at h2
        omega
      | succ g =>
        show (if dateLtP b a then [] else a :: daysRangeAux f1 (nextDay a) b)
          = (if dateLtP b a then [] else a :: daysRangeAux g (nextDay a) b)
        rw [if_neg hba, if_neg hba]
        congr 1
        apply ih g (nextDay a) b (validDate_nextDay ha) hb
        · unfold needFuel at *
          omega
        · unfold needFuel at *
          omega

theorem daysRange_eq (a b : Date) (ha : validDate a) (hb : validDate b) :
    daysRange a b = if dateLtP b a then [] else a :: daysRange (nextDay a) b := by
  by_cases hba : dateLtP b a
  · rw [if_pos hba]
    exact daysRangeAux_nil hba
  · rw [if_neg hba]
    have hle := dateLeP_of_not_ltP hba
    have hrab := dayRank_le_of_leP ha hb hle
    have hrn := dayRank_lt_nextDay ha
    unfold daysRange
    have h1 : dayRank b + 1 - dayRank a = (dayRank b + 1 - dayRank a - 1) + 1 := by
      omega
    rw [h1]
    simp only [daysRangeAux]
    rw [if_neg hba]
    congr 1
    apply daysRangeAux_stable _ _ _ _ (validDate_nextDay ha) hb
    · unfold needFuel
      omega
    · unfold needFuel
      omega

theorem mem_daysRange {b x : Date} (hb : validDate b) :
    ∀ (n : Nat) (a : Date), needFuel a b = n → validDate a →
      (x ∈ daysRange a b ↔ validDate x ∧ dateLeP a x ∧ dateLeP x b) := by
  intro n
  induction n using Nat.strong_induction_on with
  | _ n ih =>
    intro a hn ha
    rw [daysRange_eq a b ha hb]
    by_cases hba : dateLtP b a
    · rw [if_pos hba]
      simp only [List.not_mem_nil, false_iff]
      rintro ⟨hvx, hax, hxb⟩
      have h1 := dayRank_le_of_leP ha hvx hax
      have h2 := dayRank_le_of_leP hvx hb hxb
      have h3 := dayRank_lt_of_dateLtP hb ha hba
      omega
    · rw [if_neg hba]
      have hle := dateLeP_of_not_ltP hba
      have hvn := validDate_nextDay ha
      have hrn := dayRank_lt_nextDay ha
      have hrab := dayRank_le_of_leP ha hb hle
      rw [List.mem_cons]
      rw [ih (needFuel (nextDay a) b) (by unfold needFuel at *; omega) (nextDay a) rfl hvn]
      constructor
      · rintro (rfl | ⟨hvx, hnx, hxb⟩)
        · exact ⟨ha, Or.inr rfl, hle⟩
        · exact ⟨hvx, dateLeP_trans (Or.inl (dateLtP_nextDay a)) hnx, hxb⟩
      · rintro ⟨hvx, hax, hxb⟩
        rcases hax with hax | rfl
        · exact Or.inr ⟨hvx, nextDay_le_of_lt ha hvx hax, hxb⟩
        · exact Or.inl rfl

theorem daysRange_pairwise {b : Date} (hb : validDate b) :
    ∀ (n : Nat) (a : Date), needFuel a b = n → validDate a →
      List.Pairwise dateLtP (daysRange a b) := by
  intro n
  induction n using Nat.strong_induction_on with
  | _ n ih =>
    intro a hn ha
    rw [daysRange_eq a b ha hb]
    by_cases hba : dateLtP b a
    · rw [if_pos hba]
      exact List.Pairwise.nil
    · rw [if_neg hba]
      have hle := dateLeP_of_not_ltP hba
      have hvn := validDate_nextDay ha
      have hrn := dayRank_lt_nextDay ha
      have hrab := dayRank_le_of_leP ha hb hle
      rw [List.pairwise_cons]
      constructor
      · intro y hy
        have hmem := (mem_daysRange hb (needFuel (nextDay a) b) (nextDay a) rfl hvn).mp hy
        exact dateLtP_of_ltP_of_leP (dateLtP_nextDay a) hmem.2.1
      · exact ih (needFuel (nextDay a) b) (by unfold needFuel at *; omega) (nextDay a) rfl hvn

theorem daysRange_nil {a b : Date} (hba : dateLtP b a) : daysRange a b = [] :=
  daysRangeAux_nil hba

/- ===== Format/parse round trip ===== -/

theorem isDigitCh_digitChar {k : Nat} (h : k < 10) : isDigitCh (Nat.digitChar k) = true := by
  have key : ∀ k < 10, isDigitCh (Nat.digitChar k) = true := by decide
  exact key k h

theorem digitVal_digitChar {k : Nat} (h : k < 10) : digitVal (Nat.digitChar k) = k := by
  have key : ∀ k < 10, digitVal (Nat.digitChar k) = k := by decide
  exact key k h

theorem padNum_two_eq (n : Nat) :
    padNum 2 n = [Nat.digitChar (n / 10 % 10), Nat.digitChar (n % 10)] := by
  norm_num [padNum]

theorem padNum_four_eq (n : Nat) :
    padNum 4 n = [Nat.digitChar (n / 1000 % 10), Nat.digitChar (n / 100 % 10),
      Nat.digitChar (n / 10 % 10), Nat.digitChar (n % 10)] := by
  norm_num [padNum]

theorem parseDate_dateStr {d : Date} (hv : validDate d) (hy : d.year ≤ 9999) :
    parseDate (dateStr d) = some d := by
  obtain ⟨y, m, dd⟩ := d
  simp only [validDate] at hv
  dsimp only at hv hy
  have b1 : y / 1000 % 10 < 10 := Nat.mod_lt _ (by norm_num)
  have b2 : y / 100 % 10 < 10 := Nat.mod_lt _ (by norm_num)
  have b3 : y / 10 % 10 < 10 := Nat.mod_lt _ (by norm_num)
  have b4 : y % 10 < 10 := Nat.mod_lt _ (by norm_num)
  have b5 : m / 10 % 10 < 10 := Nat.mod_lt _ (by norm_num)
  have b6 : m % 10 < 10 := Nat.mod_lt _ (by norm_num)
  have b7 : dd / 10 % 10 < 10 := Nat.mod_lt _ (by norm_num)
  have b8 : dd % 10 < 10 := Nat.mod_lt _ (by norm_num)
  have d1 : y / 100 = y / 10 / 10 := by
    rw [Nat.div_div_eq_div_mul]
  have d2 : y / 1000 = y / 10 / 10 / 10 := by
    rw [Nat.div_div_eq_div_mul, Nat.div_div_eq_div_mul]
  have hyr : y / 1000 % 10 * 1000 + y / 100 % 10 * 100 + y / 10 % 10 * 10 + y % 10 = y := by
    rw [d1, d2]
    omega
  have hbm := daysInMonth_bounds y m
  have hmr : m / 10 % 10 * 10 + m % 10 = m := by omega
  have hdr : dd / 10 % 10 * 10 + dd % 10 = dd := by omega
  unfold parseDate dateStr
  rw [show (String.mk (dateChars ⟨y, m, dd⟩)).data = dateChars ⟨y, m, dd⟩ from rfl]
  rw [show dateChars ⟨y, m, dd⟩ = padNum 4 y ++ '-' :: padNum 2 m ++ '-' :: padNum 2 dd
    from rfl]
  rw [padNum_four_eq, padNum_two_eq, padNum_two_eq]
  simp only [List.cons_append, List.nil_append]
  simp only [isDigitCh_digitChar b1, isDigitCh_digitChar b2, isDigitCh_digitChar b3,
    isDigitCh_digitChar b4, isDigitCh_digitChar b5, isDigitCh_digitChar b6,
    isDigitCh_digitChar b7, isDigitCh_digitChar b8,
    digitVal_digitChar b1, digitVal_digitChar b2, digitVal_digitChar b3,
    digitVal_digitChar b4, digitVal_digitChar b5, digitVal_digitChar b6,
    digitVal_digitChar b7, digitVal_digitChar b8,
    beq_self_eq_true, Bool.and_self, Bool.and_true, Bool.true_and, if_true]
  simp only [hyr, hmr, hdr]
  rw [if_pos hv]

/- ===== Sorted matches of one day (filepath.Glob model) ===== -/

theorem insertPath_perm (x : String) (l : List String) :
    (insertPath x l).Perm (x :: l) := by
  induction l with
  | nil => exact List.Perm.refl _
  | cons y ys ih =>
    unfold insertPath
    split
    · exact List.Perm.refl _
    · exact (List.Perm.cons y ih).trans (List.Perm.swap x y ys)

theorem sortPaths_perm (l : List String) : (sortPaths l).Perm l := by
  induction l with
  | nil => exact List.Perm.refl _
  | cons x xs ih => exact (insertPath_perm x (sortPaths xs)).trans (List.Perm.cons x ih)

theorem mem_sortPaths {p : String} {l : List String} : p ∈ sortPaths l ↔ p ∈ l :=
  (sortPaths_perm l).mem_iff

theorem sortPaths_nodup {l : List String} (h : l.Nodup) : (sortPaths l).Nodup :=
  (sortPaths_perm l).symm.nodup h

theorem strLe_of_pathLe {a b : String} (h : pathLe a b = true) : a ≤ b := by
  unfold pathLe at h
  exact String.le_iff_toList_le.mpr (of_decide_eq_true h)

theorem strLe_of_pathLe_false {a b : String} (h : pathLe a b = false) : b ≤ a := by
  unfold pathLe at h
  exact String.le_iff_toList_le.mpr (le_of_not_le (of_decide_eq_false h))

theorem sorted_insertPath {x : String} {l : List String}
    (hs : List.Sorted (· ≤ ·) l) : List.Sorted (· ≤ ·) (insertPath x l) := by
  induction l with
  | nil => simp [insertPath]
  | cons y ys ih =>
    unfold insertPath
    split
    · rename_i hxy
      rw [List.sorted_cons]
      constructor
      · intro b hb
        rcases List.mem_cons.mp hb with rfl | hb
        · exact strLe_of_pathLe hxy
        · exact le_trans (strLe_of_pathLe hxy) ((List.sorted_cons.mp hs).1 b hb)
      · exact hs
    · rename_i hxy
      have h1 := List.sorted_cons.mp hs
      rw [List.sorted_cons]
      constructor
      · intro b hb
        have hb2 : b ∈ x :: ys := (insertPath_perm x ys).mem_iff.mp hb
        rcases List.mem_cons.mp hb2 with rfl | hb'
        · exact strLe_of_pathLe_false (by simpa using hxy)
        · exact h1.1 b hb'
      · exact ih h1.2

theorem sorted_sortPaths (l : List String) : List.Sorted (· ≤ ·) (sortPaths l) := by
  induction l with
  | nil => simp [sortPaths]
  | cons x xs ih => exact sorted_insertPath ih

theorem mem_globDay {p : String} {fs : List String} {d : Date} :
    p ∈ globDay fs d ↔ p ∈ fs ∧ globMatch d p = true := by
  unfold globDay
  rw [mem_sortPaths, List.mem_filter]

theorem globDay_sorted (fs : List String) (d : Date) :
    List.Sorted (· ≤ ·) (globDay fs d) := sorted_sortPaths _

theorem globDay_nodup {fs : List String} (h : fs.Nodup) (d : Date) :
    (globDay fs d).Nodup := sortPaths_nodup (h.filter _)

theorem globMatch_decomp {d : Date} {p : String} (h : globMatch d p = true) :
    ∃ rest, p.data = "ais_data/".data ++ (dateChars d ++ '_' :: rest) := by
  unfold globMatch at h
  rw [Bool.and_eq_true] at h
  obtain ⟨rest, hrest⟩ := List.isPrefixOf_iff_prefix.mp h.1
  refine ⟨rest, ?_⟩
  rw [← hrest]
  simp

theorem globMatch_lt {d1 d2 : Date} {p1 p2 : String}
    (hv1 : validDate d1) (hv2 : validDate d2) (hy2 : d2.year ≤ 9999)
    (hlt : dateLtP d1 d2)
    (h1 : globMatch d1 p1 = true) (h2 : globMatch d2 p2 = true) : p1 < p2 := by
  obtain ⟨r1, e1⟩ := globMatch_decomp h1
  obtain ⟨r2, e2⟩ := globMatch_decomp h2
  apply strLt_of_lexData
  rw [e1, e2]
  apply lex_append_left
  exact lex_append_congr _ _ (by simp [dateChars_length]) (dateChars_lt hv1 hv2 hy2 hlt)

/- ===== Assembling the resolver's correctness ===== -/

theorem year_le_of_leP {a b : Date} (h : dateLeP a b) : a.year ≤ b.year := by
  obtain ⟨y1, m1, d1⟩ := a
  obtain ⟨y2, m2, d2⟩ := b
  simp only [dateLeP, dateLtP, Date.mk.injEq] at h
  dsimp only
  omega

theorem getFilePaths_eq {a b : Date} (ha : validDate a) (hb : validDate b)
    (hya : a.year ≤ 9999) (hyb : b.year ≤ 9999) (fs : List String) :
    getFilePaths (dateStr a) (dateStr b) fs = (daysRange a b).flatMap (globDay fs) := by
  unfold getFilePaths
  rw [parseDate_dateStr ha hya, parseDate_dateStr hb hyb]
  rfl

theorem sorted_flatMap_globDay (fs : List String) :
    ∀ (days : List Date), List.Pairwise dateLtP days →
      (∀ d ∈ days, validDate d ∧ d.year ≤ 9999) →
      List.Sorted (· ≤ ·) (days.flatMap (globDay fs)) := by
  intro days
  induction days with
  | nil => intro _ _; simp
  | cons d ds ih =>
    intro hpw hval
    rw [List.flatMap_cons]
    rw [List.pairwise_cons] at hpw
    apply List.pairwise_append.mpr
    refine ⟨globDay_sorted fs d, ih hpw.2 (fun e he => hval e (List.mem_cons_of_mem _ he)), ?_⟩
    intro p hp q hq
    rcases List.mem_flatMap.mp hq with ⟨d2, hd2, hq2⟩
    have hm1 := mem_globDay.mp hp
    have hm2 := mem_globDay.mp hq2
    have hv1 := hval d (List.mem_cons_self _ _)
    have hv2 := hval d2 (List.mem_cons_of_mem _ hd2)
    exact le_of_lt (globMatch_lt hv1.1 hv2.1 hv2.2 (hpw.1 d2 hd2) hm1.2 hm2.2)

/- ===== C5 ===== -/

/-- C5: for every valid inclusive range [from, to] with from <= to,
`getFilePaths` concatenates, for each calendar day of the range in
ascending order, the lexicographically sorted partitions whose filename
date segment is that day; the result is sorted, duplicate-free,
characterized by membership, and empty exactly when no listed file matches
any day of the range — in which case the middleware answers the 404 "no
data" response rather than an error from the resolver. -/
theorem c5_resolve_correct (a b : Date) (fs : List String) (todayS : String)
    (ha : validDate a) (hb : validDate b) (hya : a.year ≤ 9999) (hyb : b.year ≤ 9999)
    (_hab : dateLeP a b) (hnd : fs.Nodup) :
    getFilePaths (dateStr a) (dateStr b) fs = (daysRange a b).flatMap (globDay fs) ∧
    (∀ d, d ∈ daysRange a b ↔ validDate d ∧ dateLeP a d ∧ dateLeP d b) ∧
    List.Pairwise dateLtP (daysRange a b) ∧
    (∀ p, p ∈ getFilePaths (dateStr a) (dateStr b) fs ↔
      p ∈ fs ∧ ∃ d ∈ daysRange a b, globMatch d p = true) ∧
    List.Sorted (· ≤ ·) (getFilePaths (dateStr a) (dateStr b) fs) ∧
    (getFilePaths (dateStr a) (dateStr b) fs).Nodup ∧
    (getFilePaths (dateStr a) (dateStr b) fs = [] ↔
      ∀ p ∈ fs, ∀ d ∈ daysRange a b, globMatch d p = false) ∧
    (getFilePaths (dateStr a) (dateStr b) fs = [] →
      middlewareDateRange todayS fs (some (dateStr a)) (some (dateStr b))
        = MwResult.notFound) := by
  have hq := getFilePaths_eq ha hb hya hyb fs
  have hdays : ∀ d, d ∈ daysRange a b ↔ validDate d ∧ dateLeP a d ∧ dateLeP d b :=
    fun d => mem_daysRange hb (needFuel a b) a rfl ha
  have hpw : List.Pairwise dateLtP (daysRange a b) :=
    daysRange_pairwise hb (needFuel a b) a rfl ha
  have hvy : ∀ d ∈ daysRange a b, validDate d ∧ d.year ≤ 9999 := by
    intro d hd
    have h := (hdays d).mp hd
    exact ⟨h.1, le_trans (year_le_of_leP h.2.2) hyb⟩
  have hmem : ∀ p, p ∈ getFilePaths (dateStr a) (dateStr b) fs ↔
      p ∈ fs ∧ ∃ d ∈ daysRange a b, globMatch d p = true := by
    intro p
    rw [hq, List.mem_flatMap]
    constructor
    · rintro ⟨d, hd, hp⟩
      have h := mem_globDay.mp hp
      exact ⟨h.1, d, hd, h.2⟩
    · rintro ⟨hpfs, d, hd, hgm⟩
      exact ⟨d, hd, mem_globDay.mpr ⟨hpfs, hgm⟩⟩
  refine ⟨hq, hdays, hpw, hmem, ?_, ?_, ?_, ?_⟩
  · rw [hq]
    exact sorted_flatMap_globDay fs _ hpw hvy
  · rw [hq]
    apply List.nodup_flatMap.mpr
    refine ⟨fun d _ => globDay_nodup hnd d, ?_⟩
    apply List.Pairwise.imp_of_mem ?_ hpw
    intro d1 d2 hd1 hd2 hlt
    intro p hp1 hp2
    have h1 := mem_globDay.mp hp1
    have h2 := mem_globDay.mp hp2
    have hv1 := hvy d1 hd1
    have hv2 := hvy d2 hd2
    exact absurd (globMatch_lt hv1.1 hv2.1 hv2.2 hlt h1.2 h2.2) (lt_irrefl p)
  · constructor
    · intro he p hp d hd
      by_contra hgm
      have hgm' : globMatch d p = true := by
        cases hx : globMatch d p
        · exact absurd hx hgm
        · rfl
      have : p ∈ getFilePaths (dateStr a) (dateStr b) fs :=
        (hmem p).mpr ⟨hp, d, hd, hgm'⟩
      rw [he] at this
      exact absurd this (List.not_mem_nil p)
    · intro hno
      rw [List.eq_nil_iff_forall_not_mem]
      intro p hp
      rcases (hmem p).mp hp with ⟨hpfs, d, hd, hgm⟩
      rw [hno p hpfs d hd] at hgm
      exact Bool.false_ne_true hgm
  · intro he
    unfold middlewareDateRange
    dsimp only [Option.getD_some]
    rw [parseDate_dateStr ha hya]
    dsimp only
    rw [parseDate_dateStr hb hyb]
    dsimp only
    rw [he]
    rfl

def exampleFs : List String :=
  ["ais_data/2023-09-02_10-00-00.parquet", "ais_data/2023-09-01_11-00-00.parquet"]

theorem c5_resolve_correct_witness :
    getFilePaths (dateStr ⟨2023, 9, 1⟩) (dateStr ⟨2023, 9, 3⟩) exampleFs =
      (daysRange ⟨2023, 9, 1⟩ ⟨2023, 9, 3⟩).flatMap (globDay exampleFs) ∧
    (∀ d, d ∈ daysRange ⟨2023, 9, 1⟩ ⟨2023, 9, 3⟩ ↔
      validDate d ∧ dateLeP ⟨2023, 9, 1⟩ d ∧ dateLeP d ⟨2023, 9, 3⟩) ∧
    List.Pairwise dateLtP (daysRange ⟨2023, 9, 1⟩ ⟨2023, 9, 3⟩) ∧
    (∀ p, p ∈ getFilePaths (dateStr ⟨2023, 9, 1⟩) (dateStr ⟨2023, 9, 3⟩) exampleFs ↔
      p ∈ exampleFs ∧ ∃ d ∈ daysRange ⟨2023, 9, 1⟩ ⟨2023, 9, 3⟩, globMatch d p = true) ∧
    List.Sorted (· ≤ ·)
      (getFilePaths (dateStr ⟨2023, 9, 1⟩) (dateStr ⟨2023, 9, 3⟩) exampleFs) ∧
    (getFilePaths (dateStr ⟨2023, 9, 1⟩) (dateStr ⟨2023, 9, 3⟩) exampleFs).Nodup ∧
    (getFilePaths (dateStr ⟨2023, 9, 1⟩) (dateStr ⟨2023, 9, 3⟩) exampleFs = [] ↔
      ∀ p ∈ exampleFs, ∀ d ∈ daysRange ⟨2023, 9, 1⟩ ⟨2023, 9, 3⟩,
        globMatch d p = false) ∧
    (getFilePaths (dateStr ⟨2023, 9, 1⟩) (dateStr ⟨2023, 9, 3⟩) exampleFs = [] →
      middlewareDateRange "2023-09-01" exampleFs
        (some (dateStr ⟨2023, 9, 1⟩)) (some (dateStr ⟨2023, 9, 3⟩))
        = MwResult.notFound) :=
  c5_resolve_correct ⟨2023, 9, 1⟩ ⟨2023, 9, 3⟩ exampleFs "2023-09-01"
    (by decide) (by decide) (by decide) (by decide) (by decide) (by decide)

/- ===== C1 ===== -/

/-- C1 counterexample: with partitions present for both days, the
inverted range from=2023-09-02, to=2023-09-01 yields the 404 "no data"
result — identical to the outcome for a genuinely empty dataset and not a
distinct validation error — while the same bounds in the correct order
succeed. -/
theorem c1_counterexample :
    middlewareDateRange "2023-09-01" exampleFs (some "2023-09-02") (some "2023-09-01")
      = MwResult.notFound ∧
    middlewareDateRange "2023-09-01" [] (some "2023-09-01") (some "2023-09-01")
      = MwResult.notFound ∧
    middlewareDateRange "2023-09-01" exampleFs (some "2023-09-01") (some "2023-09-02")
      = MwResult.ok ⟨2023, 9, 1⟩ ⟨2023, 9, 2⟩
          ["ais_data/2023-09-01_11-00-00.parquet",
           "ais_data/2023-09-02_10-00-00.parquet"] := by
  decide

/-- C1 (corrected): a request whose range has from > to is not detected by
any validation: both bounds parse, the day loop iterates zero times — so
the result does not depend on the filesystem at all (no glob runs) — and
the empty file list is surfaced as the 404 "no data" response, the very
same outcome as the no-data condition, not a distinct client-side
validation error. -/
theorem c1_inverted_range_notFound (todayS : String) (fs fs2 : List String)
    (fromS toS : String) (a b : Date)
    (hfrom : parseDate fromS = some a) (hto : parseDate toS = some b)
    (hba : dateLtP b a) :
    middlewareDateRange todayS fs (some fromS) (some toS) = MwResult.notFound ∧
    getFilePaths fromS toS fs = [] ∧
    getFilePaths fromS toS fs = getFilePaths fromS toS fs2 := by
  have hg : ∀ g : List String, getFilePaths fromS toS g = [] := by
    intro g
    unfold getFilePaths
    rw [hfrom, hto]
    dsimp only [Option.getD_some]
    rw [daysRange_nil hba]
    rfl
  refine ⟨?_, hg fs, by rw [hg fs, hg fs2]⟩
  unfold middlewareDateRange
  dsimp only [Option.getD_some]
  rw [hfrom]
  dsimp only
  rw [hto]
  dsimp only
  rw [hg fs]
  rfl

theorem c1_inverted_range_notFound_witness :
    middlewareDateRange "2023-09-01" exampleFs (some "2023-09-02") (some "2023-09-01")
      = MwResult.notFound ∧
    getFilePaths "2023-09-02" "2023-09-01" exampleFs = [] ∧
    getFilePaths "2023-09-02" "2023-09-01" exampleFs
      = getFilePaths "2023-09-02" "2023-09-01" [] :=
  c1_inverted_range_notFound "2023-09-01" exampleFs [] "2023-09-02" "2023-09-01"
    ⟨2023, 9, 2⟩ ⟨2023, 9, 1⟩ (by decide) (by decide) (by decide)
